import Mathlib

/-!
Verification of the PerfectlyBalancedShipSections notation compiler and
referential-integrity engine (`scripts/generate_sections.py` and
`scripts/fix_section_errors.py`).

Strings are embedded as lists of characters (`Str`); Python `str` operations
used by the scripts (regex search, `str.replace`, `str.split`, `str.join`,
case mapping) are modelled by executable structural recursions below.
Python dictionaries appearing in the scripts are embedded as association
lists in insertion order; Python sets are embedded as duplicate-free lists
(all set-consuming code below is order-independent or sorts first).
-/

/-- Character strings, the model of Python `str`. -/
abbrev Str := List Char

/-- Conversion from Lean string literals to the model. -/
def cs (s : String) : Str := s.data

/-- Opening brace character (Python `"{"`). -/
def obr : Char := Char.ofNat 123

/-- Closing brace character (Python `"}"`). -/
def cbr : Char := Char.ofNat 125

/-- Boolean prefix test on character lists. -/
def isPre : Str → Str → Bool
  | [], _ => true
  | _ :: _, [] => false
  | a :: as, b :: bs => a = b && isPre as bs

/-- Does `pat` occur as a contiguous substring (Python `pat in s`)? -/
def hasOcc (pat : Str) : Str → Bool
  | [] => isPre pat []
  | c :: rest => isPre pat (c :: rest) || hasOcc pat rest

/-- Python `s.count(c)` for a single character. -/
def countCh (c : Char) (l : Str) : Nat := (l.filter (fun d => d = c)).length

/-- Python `s.split(sep)` for a single-character separator. -/
def splitCh (sep : Char) : Str → List Str
  | [] => [[]]
  | c :: rest =>
    if c = sep then [] :: splitCh sep rest
    else
      match splitCh sep rest with
      | [] => [[c]]
      | g :: gs => (c :: g) :: gs

/-- Python `sep.join(parts)` for a single-character separator. -/
def joinCh (sep : Char) : List Str → Str
  | [] => []
  | [p] => p
  | p :: q :: ps => p ++ sep :: joinCh sep (q :: ps)

/-- ASCII lower-casing of one character (Python `str.lower` on the scripts' ASCII data). -/
def lowC (c : Char) : Char :=
  if 'A' ≤ c ∧ c ≤ 'Z' then Char.ofNat (c.toNat + 32) else c

/-- ASCII upper-casing of one character (Python `str.upper` on the scripts' ASCII data). -/
def uppC (c : Char) : Char :=
  if 'a' ≤ c ∧ c ≤ 'z' then Char.ofNat (c.toNat - 32) else c

/-- Python `s.lower()`. -/
def lowS (s : Str) : Str := s.map lowC

/-- Python `s.upper()`. -/
def uppS (s : Str) : Str := s.map uppC

/-- Numeric value of a decimal digit string (Python `int` on a `\d+` match). -/
def digitsVal (l : Str) : Nat := l.foldl (fun a c => a * 10 + (c.toNat - 48)) 0

/-- Maximal leading digit run (the greedy `\d+` of the regexes). -/
def takeDigits (l : Str) : Str := l.takeWhile Char.isDigit

/-- Worker for Python `s.replace(pat, rep)`: scans left to right, replacing
non-overlapping occurrences; `skip` counts characters of a just-matched
occurrence that remain to be consumed. -/
def replAux (pat rep : Str) : Nat → Str → Str
  | _, [] => []
  | Nat.succ k, _ :: rest => replAux pat rep k rest
  | 0, c :: rest =>
    if pat ≠ [] ∧ isPre pat (c :: rest) then
      rep ++ replAux pat rep (pat.length - 1) rest
    else
      c :: replAux pat rep 0 rest

/-- Python `s.replace(pat, rep)` (all occurrences, left to right, non-overlapping). -/
def replAll (pat rep l : Str) : Str := replAux pat rep 0 l

/-- Python `s.replace(pat, "")`, as used to delete a matched utility token. -/
def remOccs (pat l : Str) : Str := replAll pat [] l

/-- One attempt of `re`-matching `pre` followed by `\d+` at the head of `l`;
returns the whole matched text. -/
def tryTokAt (pre l : Str) : Option Str :=
  if isPre pre l then
    let ds := takeDigits (l.drop pre.length)
    if ds = [] then none else some (pre ++ ds)
  else none

/-- `re.search(pre + r"(\d+)", l)`: first match of the token anywhere in `l`,
returning the full matched text (`group(0)`). -/
def findTok (pre : Str) : Str → Option Str
  | [] => none
  | c :: rest =>
    match tryTokAt pre (c :: rest) with
    | some m => some m
    | none => findTok pre rest

/-- The weapon token alternatives of `r"(PD|HB|T|X|L|M|S|G|W)(\d+)"`, in the
regex's alternation order (no alternative is a prefix of another, so
first-alternative-wins agrees with Python's backtracking). -/
def WTOKS : List Str :=
  [cs "PD", cs "HB", cs "T", cs "X", cs "L", cs "M", cs "S", cs "G", cs "W"]

/-- Attempt to match one weapon token with its count at the head of `l`;
returns (kind, count, length of matched text). -/
def tryWeaponAt (l : Str) : Option (Str × Nat × Nat) :=
  WTOKS.findSome? fun t =>
    match tryTokAt t l with
    | some m => some (t, digitsVal (m.drop t.length), m.length)
    | none => none

/-- Worker for `re.finditer` over the weapon-token regex: scans left to right,
collecting non-overlapping matches in order. -/
def fwAux : Nat → Str → List (Str × Nat)
  | _, [] => []
  | Nat.succ k, _ :: rest => fwAux k rest
  | 0, c :: rest =>
    match tryWeaponAt (c :: rest) with
    | some (t, n, len) => (t, n) :: fwAux (len - 1) rest
    | none => fwAux 0 rest

/-- All weapon-token matches of a string, in scan order. -/
def findWeapons (l : Str) : List (Str × Nat) := fwAux 0 l

/-- Python `x in xs` on a list or set. -/
def memB {α : Type} [DecidableEq α] (x : α) (l : List α) : Bool :=
  l.any (fun y => y = x)

/-- First-match lookup in an insertion-ordered association list (Python `d[k]` / `d.get(k)`). -/
def lookupA {β : Type} (m : List (Str × β)) (k : Str) : Option β :=
  match m with
  | [] => none
  | (k', v) :: rest => if k' = k then some v else lookupA rest k

/-- Python `d[k] = v` on an insertion-ordered dictionary: overwrite in place
if the key is present, append otherwise. -/
def updAssoc {β : Type} (m : List (Str × β)) (k : Str) (v : β) : List (Str × β) :=
  match m with
  | [] => [(k, v)]
  | (k', v') :: rest => if k' = k then (k, v) :: rest else (k', v') :: updAssoc rest k v

/-- Build a Python dict from a sequence of key/value assignments. -/
def dictFold {β : Type} (ms : List (Str × β)) : List (Str × β) :=
  ms.foldl (fun m p => updAssoc m p.1 p.2) []

/-- `WEAPON_COSTS` of generate_sections.py. -/
def WEAPON_COSTS : List (Str × Nat) :=
  [(cs "S", 1), (cs "PD", 1), (cs "M", 2), (cs "G", 2), (cs "L", 4),
   (cs "HB", 4), (cs "X", 8), (cs "T", 16), (cs "W", 0)]

/-- `UTILITY_COSTS` of generate_sections.py. -/
def UTILITY_COSTS : List (Str × Nat) := [(cs "UL", 4), (cs "US", 1)]

/-- `SHIP_AUX_COST` of generate_sections.py. -/
def SHIP_AUX_COST : List (Str × Nat) :=
  [(cs "corvette", 1), (cs "frigate", 1), (cs "destroyer", 2), (cs "cruiser", 4),
   (cs "battleship", 8), (cs "titan", 16), (cs "juggernaut", 16),
   (cs "colossus", 16), (cs "star_eater", 32)]

/-- `TIER_THRESHOLDS` of generate_sections.py: ordered (name, min, max) buckets. -/
def TIER_THRESHOLDS : List (Str × Nat × Nat) :=
  [(cs "common", 0, 24), (cs "advanced", 25, 32), (cs "pro", 33, 40),
   (cs "ultra", 41, 52), (cs "ultimate", 53, 999)]

/-- The tier-assignment loop of `parse_notation`: first bucket whose closed
range contains the total, with the loop's initial value `"common"` kept when
no bucket matches. -/
def tierOf (p : Nat) : Str :=
  match TIER_THRESHOLDS.find? (fun t => t.2.1 ≤ p && p ≤ t.2.2) with
  | some t => t.1
  | none => cs "common"

/-- `ParsedDesign` of generate_sections.py (the `notation` field is named
`nota` here). -/
structure ParsedDesign where
  nota : Str
  weapons : List (Str × Nat)
  large_utility : Nat
  small_utility : Nat
  aux : Nat
  total_points : Nat
  tier : Str
  deriving DecidableEq, Repr

/-- Weapon points: `sum(WEAPON_COSTS.get(w, 0) * c for w, c in weapons.items())`. -/
def weaponPts (ws : List (Str × Nat)) : Nat :=
  (ws.map (fun p => (lookupA WEAPON_COSTS p.1).getD 0 * p.2)).sum

/-- Aux-slot cost: `SHIP_AUX_COST.get(ship_type, 4)`. -/
def auxCostOf (ship : Str) : Nat := (lookupA SHIP_AUX_COST ship).getD 4

/-- `parse_notation` of generate_sections.py: extract the first `UL\d+`,
`US\d+` and `AUX\d+` tokens (deleting every copy of each matched text from
the working string), then scan the remainder for weapon tokens, then compute
points and tier. -/
def parse_notation (nota : Str) (ship : Str) : ParsedDesign :=
  let ulM := findTok (cs "UL") nota
  let large_utility := match ulM with | some m => digitsVal (m.drop 2) | none => 0
  let work1 := match ulM with | some m => remOccs m nota | none => nota
  let usM := findTok (cs "US") work1
  let small_utility := match usM with | some m => digitsVal (m.drop 2) | none => 0
  let work2 := match usM with | some m => remOccs m work1 | none => work1
  let auxM := findTok (cs "AUX") work2
  let aux := match auxM with | some m => digitsVal (m.drop 3) | none => 0
  let work3 := match auxM with | some m => remOccs m work2 | none => work2
  let weapons := dictFold (findWeapons work3)
  let utility_pts :=
    large_utility * (lookupA UTILITY_COSTS (cs "UL")).getD 0 +
      small_utility * (lookupA UTILITY_COSTS (cs "US")).getD 0
  let total_points := weaponPts weapons + utility_pts + aux * auxCostOf ship
  { nota := nota
    weapons := weapons
    large_utility := large_utility
    small_utility := small_utility
    aux := aux
    total_points := total_points
    tier := tierOf total_points }

/-- Locator maps (`best_locators` / `fallback_locators`): Python dicts from
category name to locator-name list. -/
abbrev LocMap := List (Str × List Str)

/-- Python truthiness of the optional entity-name variables: `None` and the
empty string are falsy. -/
def pyFalsy : Option Str → Bool
  | none => true
  | some s => s = []

/-- The universal-locator test of `find_entity_for_design`. -/
def isUniversal (loc : Str) : Bool :=
  loc = cs "turret_01" || loc = cs "weapon_01" || loc = cs "weapon_02" ||
    loc = cs "root" || loc = cs "core" ||
    hasOcc (cs "turret_") loc || hasOcc (cs "planet_killer") loc

/-- The universal-locator map: every attachment category maps to the single
universal locator. -/
def univMap (u : Str) : LocMap :=
  [(cs "large_gun", [u]), (cs "medium_gun", [u]), (cs "small_gun", [u]),
   (cs "xl_gun", [u]), (cs "strike_craft", [u]), (cs "planet_killer", [u])]

/-- Category membership predicate of the `loc_counts` / `best_locators`
filters: plain substring match, except `planet_killer` also accepts
`core` and `root`. -/
def catPred (cat : Str) (l : Str) : Bool :=
  if cat = cs "planet_killer" then
    hasOcc (cs "planet_killer") l || l = cs "core" || l = cs "root"
  else
    hasOcc cat l

/-- `loc_counts[cat]`: number of the entity's locators in the category. -/
def locCount (cat : Str) (locs : List Str) : Nat := (locs.filter (catPred cat)).length

/-- `weapon_to_loc` of `find_entity_for_design`. -/
def weaponToLoc : List (Str × Str) :=
  [(cs "L", cs "large_gun"), (cs "M", cs "medium_gun"), (cs "S", cs "small_gun"),
   (cs "PD", cs "small_gun"), (cs "G", cs "medium_gun"), (cs "X", cs "xl_gun"),
   (cs "T", cs "xl_gun"), (cs "HB", cs "strike_craft"), (cs "W", cs "planet_killer")]

/-- The per-entity score / `can_support` accumulation over the requested
weapons, in dict order. -/
def scoreOf (weapons : List (Str × Nat)) (locs : List Str) : Int × Bool :=
  weapons.foldl
    (fun st p =>
      match lookupA weaponToLoc p.1 with
      | none => st
      | some lt =>
        let avail := locCount lt locs
        if avail ≥ p.2 then (st.1 + (p.2 : Int) * 10, st.2)
        else if avail > 0 then (st.1 + (avail : Int), st.2)
        else (st.1, false))
    (0, true)

/-- `best_locators` for a fully-scored entity: the per-category partitions of
its locators. -/
def bestMap (locs : List Str) : LocMap :=
  [(cs "large_gun", locs.filter (catPred (cs "large_gun"))),
   (cs "medium_gun", locs.filter (catPred (cs "medium_gun"))),
   (cs "small_gun", locs.filter (catPred (cs "small_gun"))),
   (cs "xl_gun", locs.filter (catPred (cs "xl_gun"))),
   (cs "strike_craft", locs.filter (catPred (cs "strike_craft"))),
   (cs "planet_killer", locs.filter (catPred (cs "planet_killer")))]

/-- `fallback_locators` for the entity with the most locators: the `"all"`
entry records its full locator list, `small_gun` maps to that full list, and
every other category maps to the singleton of the entity's first locator
(`"root"` when it has none). -/
def fbMap (locs : List Str) : LocMap :=
  let fl := locs.headD (cs "root")
  [(cs "all", locs),
   (cs "large_gun", [fl]), (cs "medium_gun", [fl]),
   (cs "small_gun", if locs ≠ [] then locs else [fl]),
   (cs "xl_gun", [fl]), (cs "strike_craft", [fl]), (cs "planet_killer", [fl])]

/-- The entity loop of `find_entity_for_design`, carrying the best and
fallback accumulators; returns on the first universal locator. -/
def feLoop (weapons : List (Str × Nat)) :
    List (Str × List Str) → Option Str → Int → LocMap → Option Str → LocMap →
      Option Str × LocMap
  | [], be, _, bl, fe, fl =>
    if pyFalsy be && !pyFalsy fe then (fe, fl) else (be, bl)
  | (name, locs) :: rest, be, bs, bl, fe, fl =>
    let upd : Bool := pyFalsy fe || locs.length > ((lookupA fl (cs "all")).getD []).length
    let fe' := if upd then some name else fe
    let fl' := if upd then fbMap locs else fl
    match locs.find? isUniversal with
    | some u => (some name, univMap u)
    | none =>
      let sc := scoreOf weapons locs
      if sc.2 && sc.1 > bs then
        feLoop weapons rest (some name) sc.1 (bestMap locs) fe' fl'
      else
        feLoop weapons rest be bs bl fe' fl'

/-- `find_entity_for_design` of generate_sections.py, abstracted over the
candidate-entity list of the `(ship_type, slot)` context (the nested
`vanilla_data` lookups and the unused `templates` field are elided): returns
`(None, empty)` exactly as the Python returns `(None, {})`. -/
def find_entity_for_design (weapons : List (Str × Nat))
    (entities : List (Str × List Str)) : Option Str × LocMap :=
  match entities with
  | [] => (none, [])
  | _ :: _ => feLoop weapons entities none (-1) [] none []

/-- `VALID_TIERS` of fix_section_errors.py. -/
def VALID_TIERS : List Str :=
  [cs "COMMON", cs "ADVANCED", cs "PRO", cs "ULTRA", cs "ULTIMATE"]

/-- Membership in `VALID_TIERS` (Python `part in VALID_TIERS`). -/
def inTiers (p : Str) : Bool := VALID_TIERS.any (fun t => t = p)

/-- Python regex `\s` on the scripts' ASCII data. -/
def isSpaceCh (c : Char) : Bool :=
  c = ' ' || c = Char.ofNat 9 || c = Char.ofNat 10 || c = Char.ofNat 13 ||
    c = Char.ofNat 11 || c = Char.ofNat 12

/-- Python regex `\w` on the scripts' ASCII data. -/
def isWordCh (c : Char) : Bool := c.isAlpha || c.isDigit || c = '_'

/-- The character class `[\d.\-]` of the modifier-deletion regex. -/
def isNumCh (c : Char) : Bool := c.isDigit || c = '.' || c = '-'

/-- The `for i, part in enumerate(parts): if part in VALID_TIERS: ... break`
scan: index of the first element satisfying `p`. -/
def idxFirst (p : Str → Bool) : List Str → Option Nat
  | [] => none
  | x :: xs => if p x then some 0 else (idxFirst p xs).map (· + 1)

/-- The inner `fix_key` of `fix_section_tiers`, on one captured key, with the
runtime `SHIP_BASE_POINTS` table abstracted as the membership test `known`
(the table is loaded from external data at run time).  Returns the rewritten
key when the recomputed tier differs from the embedded one, `none` when the
key is left unchanged.  (The Python also assigns a local `slot` variable that
it never uses; it is elided here.) -/
def fix_key (known : Str → Bool) (full_key : Str) : Option Str :=
  let parts := splitCh '_' full_key
  if parts.length < 5 ∨ parts.headD [] ≠ cs "PBSS" then none
  else
    match idxFirst inTiers parts with
    | none => none
    | some ti =>
      let current := parts.getD ti []
      let nota := joinCh '_' (parts.drop (ti + 1))
      let ship1 := lowS (joinCh '_' ((parts.drop 1).take (ti - 1 - 1)))
      let ship? : Option Str :=
        if known ship1 then some ship1
        else
          let ship2 := lowS (joinCh '_' ((parts.drop 1).take (ti - 1)))
          if known ship2 then some ship2 else none
      match ship? with
      | none => none
      | some st =>
        let design := parse_notation nota st
        let correct := uppS design.tier
        if correct ≠ current then
          some (replAll (('_' :: current) ++ ['_']) (('_' :: correct) ++ ['_']) full_key)
        else none

/-- Attempt, at the head of `l`, the pattern `fname\s*=\s*"([^"]+)"`;
returns (length of the whole match, captured group). -/
def tryQuotedAt (fname l : Str) : Option (Nat × Str) :=
  if isPre fname l then
    let r1 := l.drop fname.length
    let s1 := r1.takeWhile isSpaceCh
    match r1.drop s1.length with
    | '=' :: r3 =>
      let s2 := r3.takeWhile isSpaceCh
      match r3.drop s2.length with
      | '\"' :: r5 =>
        let body := r5.takeWhile (fun c => c ≠ '\"')
        if body = [] then none
        else
          match r5.drop body.length with
          | '\"' :: _ =>
            some (fname.length + s1.length + 1 + s2.length + 1 + body.length + 1, body)
          | _ => none
      | _ => none
    | _ => none
  else none

/-- `re.search(fname + r'\s*=\s*"([^"]+)"', l)`, returning the captured group. -/
def searchQuoted (fname : Str) : Str → Option Str
  | [] => none
  | c :: rest =>
    match tryQuotedAt fname (c :: rest) with
    | some p => some p.2
    | none => searchQuoted fname rest

/-- Attempt, at the head of `l`, the pattern `fname\s*=\s*(\w+)`. -/
def tryWordAt (fname l : Str) : Option (Nat × Str) :=
  if isPre fname l then
    let r1 := l.drop fname.length
    let s1 := r1.takeWhile isSpaceCh
    match r1.drop s1.length with
    | '=' :: r3 =>
      let s2 := r3.takeWhile isSpaceCh
      let r4 := r3.drop s2.length
      let body := r4.takeWhile isWordCh
      if body = [] then none
      else some (fname.length + s1.length + 1 + s2.length + body.length, body)
    | _ => none
  else none

/-- `re.search(fname + r"\s*=\s*(\w+)", l)`, returning the captured group. -/
def searchWord (fname : Str) : Str → Option Str
  | [] => none
  | c :: rest =>
    match tryWordAt fname (c :: rest) with
    | some p => some p.2
    | none => searchWord fname rest

/-- Worker for `re.finditer` of a quoted field: all captured groups, in scan
order, non-overlapping. -/
def falAux (fname : Str) : Nat → Str → List Str
  | _, [] => []
  | Nat.succ k, _ :: rest => falAux fname k rest
  | 0, c :: rest =>
    match tryQuotedAt fname (c :: rest) with
    | some (len, b) => b :: falAux fname (len - 1) rest
    | none => falAux fname 0 rest

/-- All captured groups of the quoted-field pattern in `l`. -/
def findAllQuoted (fname l : Str) : List Str := falAux fname 0 l

/-- First-occurrence deduplication: the contents of a Python set built by
repeated `add`, listed in insertion order. -/
def dedupL (l : List Str) : List Str :=
  l.foldl (fun acc x => if memB x acc then acc else acc ++ [x]) []

/-- The key-rewriting scan of `fix_section_tiers`:
`re.sub(r'key\s*=\s*"(PBSS_[^"]+)"', fix_key, content)`.  A match whose key
`fix_key` rewrites is replaced by the normalized `key = "..."` text; any
other match is emitted verbatim. -/
def ftsAux (known : Str → Bool) : Nat → Str → Str
  | _, [] => []
  | Nat.succ k, _ :: rest => ftsAux known k rest
  | 0, c :: rest =>
    match tryQuotedAt (cs "key") (c :: rest) with
    | some (len, grp) =>
      if isPre (cs "PBSS_") grp ∧ 5 < grp.length then
        (match fix_key known grp with
         | some nk => cs "key = " ++ '\"' :: nk ++ ['\"']
         | none => (c :: rest).take len) ++ ftsAux known (len - 1) rest
      else (c :: rest).take len ++ ftsAux known (len - 1) rest
    | none => c :: ftsAux known 0 rest

/-- `fix_section_tiers` of fix_section_errors.py (content transformation; the
returned change log is reporting only and is elided). -/
def fix_section_tiers (known : Str → Bool) (content : Str) : Str :=
  ftsAux known 0 content

/-- Word-boundary-aware replacement, the model of
`re.sub(rf"\b{re.escape(old)}\b", new, content)`.  `prevW` records whether
the previously consumed character is a word character. -/
def wbAux (pat rep : Str) : Bool → Nat → Str → Str
  | _, _, [] => []
  | _, Nat.succ k, c :: rest => wbAux pat rep (isWordCh c) k rest
  | prevW, 0, c :: rest =>
    let bBefore := prevW ≠ isWordCh c
    let after := (c :: rest).drop pat.length
    let bAfter :=
      isWordCh (pat.getLastD ' ') ≠ (match after with | [] => false | d :: _ => isWordCh d)
    if pat ≠ [] ∧ isPre pat (c :: rest) ∧ bBefore ∧ bAfter then
      rep ++ wbAux pat rep (isWordCh c) (pat.length - 1) rest
    else
      c :: wbAux pat rep (isWordCh c) 0 rest

/-- `re.sub` with `\b` anchors around a literal pattern. -/
def wbReplace (pat rep l : Str) : Str := wbAux pat rep false 0 l

/-- Does a line match the modifier-deletion pattern
`^\s*{mod}\s*=\s*[\d.\-]+\s*#?.*$` (the trailing `\s*#?.*` matches any
remainder of the line)?  The `MULTILINE` regex is applied per line here. -/
def modLineMatches (mod l : Str) : Bool :=
  let r1 := l.dropWhile isSpaceCh
  if isPre mod r1 then
    let r2 := (r1.drop mod.length).dropWhile isSpaceCh
    match r2 with
    | '=' :: r3 => (r3.dropWhile isSpaceCh).takeWhile isNumCh ≠ []
    | _ => false
  else false

/-- Content as its list of lines (Python `content.split("\n")`). -/
def linesOf (c : Str) : List Str := splitCh (Char.ofNat 10) c

/-- Python `"\n".join(lines)`. -/
def unlines (ls : List Str) : Str := joinCh (Char.ofNat 10) ls

/-- `fix_modifiers` of fix_section_errors.py: each invalid modifier is either
deleted line-wise (replacement `None`) or replaced under word boundaries. -/
def fix_modifiers (reps : List (Str × Option Str)) (content : Str) : Str :=
  reps.foldl
    (fun c p =>
      match p.2 with
      | none => unlines ((linesOf c).filter (fun l => ¬modLineMatches p.1 l))
      | some nm => wbReplace p.1 nm c)
    content

/-- `fix_tech_references` of fix_section_errors.py: sequential plain
`str.replace` of each invalid technology reference. -/
def fix_tech_references (reps : List (Str × Str)) (content : Str) : Str :=
  reps.foldl (fun c p => replAll p.1 p.2 c) content

/-- `extract_section_data` of fix_section_errors.py, as a record (the Python
returns a dict whose `locators` entry is a set; insertion order is used as
its canonical listing). -/
structure SectionData where
  key : Option Str
  entity : Option Str
  ship_size : Option Str
  slot : Option Str
  locators : List Str
  deriving DecidableEq, Repr

/-- `extract_section_data` of fix_section_errors.py. -/
def extract_section_data (content : Str) : SectionData :=
  { key := searchQuoted (cs "key") content
    entity := searchQuoted (cs "entity") content
    ship_size := searchWord (cs "ship_size") content
    slot := searchWord (cs "fits_on_slot") content
    locators := dedupL (findAllQuoted (cs "locatorname") content) }

/-- `is_entity_valid_for_context` of fix_section_errors.py.
`ess` is `entity_to_ship_slot` (entity to its (ship, slot) contexts), `sse`
is `ship_slot_entities` (ship to slot to entity names). -/
def is_entity_valid_for_context (entity ship slot : Str)
    (ess : List (Str × List (Str × Str)))
    (sse : List (Str × List (Str × List Str))) : Bool :=
  match lookupA ess entity with
  | none => false
  | some ctxs =>
    if memB (ship, slot) ctxs then true
    else
      match lookupA sse ship with
      | none => false
      | some slots =>
        match lookupA slots slot with
        | none => false
        | some ents => memB entity ents

/-- The shared "entity with the most locators" selection loop (strictly more
than the best so far, starting from count 0, so an entity with no locators is
never selected). -/
def bestByLocCount (el : List (Str × List Str)) (ents : List Str) : Option Str :=
  (ents.foldl
      (fun (st : Option Str × Nat) e =>
        let n := ((lookupA el e).getD []).length
        if n > st.2 then (some e, n) else st)
      (none, 0)).1

/-- `get_valid_entity_for_slot` of fix_section_errors.py. -/
def get_valid_entity_for_slot (ship slot : Str)
    (sse : List (Str × List (Str × List Str))) (el : List (Str × List Str)) :
    Option Str :=
  match lookupA sse ship with
  | none => none
  | some slots =>
    match lookupA slots slot with
    | none => none
    | some ents => if ents = [] then none else bestByLocCount el ents

/-- The slot-alternative scan of `find_default_entity`: first alternative
whose candidate list is non-empty. -/
def findCands (slots : List (Str × List Str)) : List Str → List Str
  | [] => []
  | s :: rest =>
    match lookupA slots s with
    | some ents => if ents ≠ [] then ents else findCands slots rest
    | none => findCands slots rest

/-- `find_default_entity` of fix_section_errors.py. -/
def find_default_entity (ship slot : Str)
    (sse : List (Str × List (Str × List Str))) (el : List (Str × List Str)) :
    Option Str :=
  match lookupA sse ship with
  | none => none
  | some slots =>
    let alts :=
      if slot = cs "core" then [slot, cs "mid", cs "bow", cs "stern"]
      else if slot = cs "mid" then [slot, cs "core"]
      else [slot]
    match findCands slots alts with
    | [] => none
    | cands => bestByLocCount el cands

/-- `find_best_entity` of fix_section_errors.py: a candidate of the context
holding every needed locator, scored by matched-locator count plus a naming
bonus; the current entity itself is never returned. -/
def find_best_entity (needed : List Str) (current ship slot : Str)
    (el : List (Str × List Str)) (sse : List (Str × List (Str × List Str))) :
    Option Str :=
  let candidates :=
    match lookupA sse ship with
    | none => []
    | some slots => (lookupA slots slot).getD []
  if candidates = [] then none
  else
    let base := (splitCh '_' (remOccs (cs "_entity") current)).headD []
    let best :=
      candidates.foldl
        (fun (st : Option Str × Nat) e =>
          let locs := (lookupA el e).getD []
          if locs = [] then st
          else
            let matching := needed.filter (fun n => memB n locs)
            let score := matching.length + (if hasOcc base e then 5 else 0)
            if matching.length = needed.length ∧ score > st.2 then (some e, score)
            else st)
        (none, 0)
    match best.1 with
    | some b => if b = current then none else some b
    | none => none

/-- `size_map` of `get_locator_mapping`, in dict order. -/
def size_map : List (Str × List Str) :=
  [(cs "xl_gun", [cs "large_gun", cs "extra_large", cs "xl_gun"]),
   (cs "extra_large", [cs "xl_gun", cs "large_gun", cs "extra_large"]),
   (cs "large_gun", [cs "large_gun", cs "xl_gun", cs "medium_gun"]),
   (cs "medium_gun", [cs "medium_gun", cs "large_gun", cs "small_gun"]),
   (cs "small_gun", [cs "small_gun", cs "medium_gun", cs "point_defence"]),
   (cs "main_body", [cs "root", cs "core", cs "weapon_01"]),
   (cs "weapon", [cs "weapon_01", cs "weapon_02", cs "root"])]

/-- Python string `<` (code-point lexicographic, proper prefix is smaller). -/
def lexLt : Str → Str → Bool
  | [], [] => false
  | [], _ :: _ => true
  | _ :: _, [] => false
  | a :: as, b :: bs => if a = b then lexLt as bs else decide (a < b)

/-- Insertion step of `sorted`. -/
def insLex (x : Str) : List Str → List Str
  | [] => [x]
  | y :: ys => if lexLt x y then x :: y :: ys else y :: insLex x ys

/-- Python `sorted` on a set of strings. -/
def sortLex (l : List Str) : List Str := l.foldr insLex []

/-- The nested preference loops of `get_locator_mapping`: first preference
keyword that is a substring of some valid locator, scanning the sorted valid
list for each keyword. -/
def prefSearch (prefs : List Str) (vl : List Str) : Option Str :=
  prefs.findSome? (fun p => vl.find? (fun v => hasOcc p v))

/-- The per-locator body of `get_locator_mapping`: the first `size_map` key
contained in the needed locator selects the preference list; a failed
preference search, or no matching size key, falls back to `valid_list[0]`. -/
def mapOneLocator (needed : Str) (vl : List Str) : Str :=
  let best :=
    match size_map.find? (fun kp => hasOcc kp.1 needed) with
    | some kp => prefSearch kp.2 vl
    | none => none
  match best with
  | some b => b
  | none => vl.headD []

/-- `get_locator_mapping` of fix_section_errors.py. -/
def get_locator_mapping (needed valid : List Str) : List (Str × Str) :=
  if valid = [] then []
  else
    let vl := sortLex valid
    needed.foldl
      (fun m n => if memB n valid then m else updAssoc m n (mapOneLocator n vl))
      []

/-- Attempt, at the head of `l`, the literal field pattern
`fname\s*=\s*"old"` (the `re.escape`d entity/locator rewriting patterns);
returns the match length. -/
def tryFieldLit (fname old l : Str) : Option Nat :=
  if isPre fname l then
    let r1 := l.drop fname.length
    let s1 := r1.takeWhile isSpaceCh
    match r1.drop s1.length with
    | '=' :: r3 =>
      let s2 := r3.takeWhile isSpaceCh
      match r3.drop s2.length with
      | '\"' :: r5 =>
        if isPre old r5 then
          match r5.drop old.length with
          | '\"' :: _ =>
            some (fname.length + s1.length + 1 + s2.length + 1 + old.length + 1)
          | _ => none
        else none
      | _ => none
    | _ => none
  else none

/-- Worker for `re.sub` of a quoted field literal by a fixed replacement. -/
def rflAux (fname old rep : Str) : Nat → Str → Str
  | _, [] => []
  | Nat.succ k, _ :: rest => rflAux fname old rep k rest
  | 0, c :: rest =>
    match tryFieldLit fname old (c :: rest) with
    | some len => rep ++ rflAux fname old rep (len - 1) rest
    | none => c :: rflAux fname old rep 0 rest

/-- `re.sub(rf'entity\s*=\s*"{re.escape(old)}"', f'entity = "{new}"', content)`. -/
def replEntity (old new content : Str) : Str :=
  rflAux (cs "entity") old (cs "entity = " ++ '\"' :: new ++ ['\"']) 0 content

/-- `re.sub(rf'locatorname\s*=\s*"{re.escape(old)}"', f'locatorname = "{new}"', content)`. -/
def replLocator (old new content : Str) : Str :=
  rflAux (cs "locatorname") old (cs "locatorname = " ++ '\"' :: new ++ ['\"']) 0 content

/-- `fix_section` of fix_section_errors.py (content transformation; the
change log is elided, and the `locator_entities` parameter the Python never
reads is dropped). -/
def fix_section (content : Str) (el : List (Str × List Str))
    (sse : List (Str × List (Str × List Str)))
    (ess : List (Str × List (Str × Str))) : Str :=
  let data := extract_section_data content
  let entity0 := data.entity.getD []
  let ship := data.ship_size.getD []
  let slot := data.slot.getD (cs "mid")
  let needed := data.locators
  if entity0 = [] then content
  else
    let validCtx := is_entity_valid_for_context entity0 ship slot ess sse
    let st1 :=
      if ¬validCtx then
        match get_valid_entity_for_slot ship slot sse el with
        | some ce => (replEntity entity0 ce content, ce)
        | none => (content, entity0)
      else (content, entity0)
    let entity_exists := (lookupA el st1.2).isSome
    let st2 :=
      if ¬entity_exists then
        match find_default_entity ship slot sse el with
        | some de => (replEntity st1.2 de st1.1, de)
        | none => st1
      else st1
    let valid_locators := (lookupA el st2.2).getD []
    if needed = [] then st2.1
    else
      let invalid := needed.filter (fun n => !memB n valid_locators)
      if invalid = [] then st2.1
      else
        match find_best_entity needed st2.2 ship slot el sse with
        | some be => replEntity st2.2 be st2.1
        | none =>
          if valid_locators ≠ [] then
            let mapping := get_locator_mapping invalid valid_locators
            mapping.foldl (fun c p => replLocator p.1 p.2 c) st2.1
          else st2.1

/-- Python `line.count(c)` for one character. -/
def braces (l : Str) : Int := (countCh obr l : Int) - (countCh cbr l : Int)

/-- The block-start test of the line loops:
`"ship_section_template" in line and "=" in line and "{" in line`. -/
def isTplLine (l : Str) : Bool :=
  hasOcc (cs "ship_section_template") l && hasOcc (cs "=") l && hasOcc [obr] l

/-- The inner `while i < len(lines) and brace_count > 0` collection loop of
the block scanners: collects the block's remaining lines and returns the
unconsumed suffix. -/
def collectB (bc : Int) : List Str → List Str × List Str
  | [] => ([], [])
  | l :: ls =>
    if bc > 0 then
      let r := collectB (bc + braces l) ls
      (l :: r.1, r.2)
    else ([], l :: ls)

/-- `normalize_slot_name` of fix_section_errors.py. -/
def normalize_slot_name (slot ship : Str) (vs : List (Str × List Str)) : Str :=
  let aliases : List (Str × Str) :=
    [(cs "ship", cs "mid"), (cs "core", cs "mid"),
     (cs "section", cs "mid"), (cs "main", cs "mid")]
  match lookupA vs ship with
  | none => slot
  | some valid =>
    if memB slot valid then slot
    else
      let viaAlias :=
        match lookupA aliases slot with
        | some n => if memB n valid then some n else none
        | none => none
      match viaAlias with
      | some n => n
      | none =>
        match valid with
        | v :: _ => v
        | [] => slot

/-- Attempt, at the head of `l`, the unquoted literal field pattern
`fname\s*=\s*old` of the slot rewriting; returns the match length. -/
def tryBareLit (fname old l : Str) : Option Nat :=
  if isPre fname l then
    let r1 := l.drop fname.length
    let s1 := r1.takeWhile isSpaceCh
    match r1.drop s1.length with
    | '=' :: r3 =>
      let s2 := r3.takeWhile isSpaceCh
      if isPre old (r3.drop s2.length) then
        some (fname.length + s1.length + 1 + s2.length + old.length)
      else none
    | _ => none
  else none

/-- Worker for `re.sub` of the unquoted slot field. -/
def rblAux (fname old rep : Str) : Nat → Str → Str
  | _, [] => []
  | Nat.succ k, _ :: rest => rblAux fname old rep k rest
  | 0, c :: rest =>
    match tryBareLit fname old (c :: rest) with
    | some len => rep ++ rblAux fname old rep (len - 1) rest
    | none => c :: rblAux fname old rep 0 rest

/-- `re.sub(rf"fits_on_slot\s*=\s*{re.escape(old)}", f"fits_on_slot = {new}", section)`. -/
def replSlot (old new sec : Str) : Str :=
  rblAux (cs "fits_on_slot") old (cs "fits_on_slot = " ++ new) 0 sec

/-- The per-block body of `fix_slot_names`: result lines contributed by one
section block. -/
def fsnSection (vs : List (Str × List Str)) (sec : Str) : List Str :=
  match searchWord (cs "ship_size") sec, searchWord (cs "fits_on_slot") sec with
  | some ship, some slot =>
    let nslot := normalize_slot_name slot ship vs
    if nslot ≠ slot then linesOf (replSlot slot nslot sec) else linesOf sec
  | _, _ => linesOf sec

/-- The outer line loop of `fix_slot_names`; `fuel` bounds the iteration
count (each step consumes at least one line, so the line count suffices). -/
def fsnAux (vs : List (Str × List Str)) : Nat → List Str → List Str
  | _, [] => []
  | 0, ls => ls
  | Nat.succ f, l :: ls =>
    if isTplLine l then
      let r := collectB (braces l) ls
      fsnSection vs (unlines (l :: r.1)) ++ fsnAux vs f r.2
    else l :: fsnAux vs f ls

/-- `fix_slot_names` of fix_section_errors.py (content transformation). -/
def fix_slot_names (vs : List (Str × List Str)) (content : Str) : Str :=
  unlines (fsnAux vs (linesOf content).length (linesOf content))

/-- The section-template loop of `process_file`: each block is passed through
`fix_section` and re-inserted as a single result element. -/
def psAux (el : List (Str × List Str)) (sse : List (Str × List (Str × List Str)))
    (ess : List (Str × List (Str × Str))) : Nat → List Str → List Str
  | _, [] => []
  | 0, ls => ls
  | Nat.succ f, l :: ls =>
    if isTplLine l then
      let r := collectB (braces l) ls
      fix_section (unlines (l :: r.1)) el sse ess :: psAux el sse ess f r.2
    else l :: psAux el sse ess f ls

/-- The pure content transformation of `process_file` of
fix_section_errors.py: tier fix, then slot-name fix, then modifier fix, then
technology fix, then the per-section entity/locator fix (file I/O and
reporting are external). -/
def process_file_content (known : Str → Bool) (modReps : List (Str × Option Str))
    (techReps : List (Str × Str)) (vs : List (Str × List Str))
    (el : List (Str × List Str)) (sse : List (Str × List (Str × List Str)))
    (ess : List (Str × List (Str × Str))) (content : Str) : Str :=
  let c1 := fix_section_tiers known content
  let c2 := fix_slot_names vs c1
  let c3 := fix_modifiers modReps c2
  let c4 := fix_tech_references techReps c3
  unlines (psAux el sse ess (linesOf c4).length (linesOf c4))

/-- Does `pat` occur starting strictly inside `l₁`, in the string `l₁ ++ t`? -/
def occBefore (pat : Str) : Str → Str → Bool
  | [], _ => false
  | c :: r, t => isPre pat (c :: (r ++ t)) || occBefore pat r t

/-- The count attached to the last occurrence of weapon kind `k` in a match
list (the overwrite semantics of the Python dict assignment). -/
def lastVal (ms : List (Str × Nat)) (k : Str) : Option Nat :=
  ms.foldl (fun a p => if p.1 = k then some p.2 else a) none

/-- The spec's invariant formula for the total: sum over the parsed weapon
kinds of cost times count (unknown kinds costing 0), plus large utility at 4
points, small utility at 1 point, and aux slots at the per-ship aux cost with
default 4. -/
def specTotalPoints (d : ParsedDesign) (ship : Str) : Nat :=
  (d.weapons.map (fun p => (lookupA WEAPON_COSTS p.1).getD 0 * p.2)).sum +
    d.large_utility * 4 + d.small_utility * 1 + d.aux * auxCostOf ship

/-- The running "entity with strictly more locators wins" selection that the
fallback accumulator of `find_entity_for_design` computes. -/
def maxFold (p : Str × List Str) (es : List (Str × List Str)) : Str × List Str :=
  es.foldl (fun a b => if b.2.length > a.2.length then b else a) p

/-- The identifier `PBSS_<SHIPTYPE>_<SLOT>_<TIER>_<NOTATION>`, with the ship
type given by its underscore-separated parts. -/
def mkKey (sp : List Str) (slot tier nota : Str) : Str :=
  cs "PBSS" ++ '_' :: joinCh '_' sp ++ '_' :: slot ++ '_' :: tier ++ '_' :: nota

/-- The module-level names bound in generate_sections.py, in order: the
`import` / `from ... import` bindings and the module-level assignments,
classes and functions. -/
def generateSectionsModuleNames : List String :=
  ["json", "re", "dataclass", "Path", "SCRIPT_DIR", "VANILLA_DATA_PATH",
   "WEAPON_COSTS", "UTILITY_COSTS", "SHIP_AUX_COST", "TIER_THRESHOLDS",
   "TIER_COST_MULT", "TEMPLATES", "LOCATOR_PREFIX", "ParsedDesign",
   "parse_notation", "load_vanilla_data", "find_entity_for_design",
   "generate_section_template", "cmd_design", "cmd_info", "cmd_calc", "main"]

/-- The names fix_section_errors.py requires of the generate_sections module:
the three names of its module-level `from generate_sections import ...`
(line 19) and the module attribute `generate_sections.SHIP_BASE_POINTS`
updated by `load_vanilla_data` (line 102). -/
def fixSectionErrorsRequiredNames : List String :=
  ["parse_notation", "TIER_MULTIPLIERS", "DEFAULT_BASE_POINTS", "SHIP_BASE_POINTS"]

/-! ## Lemmas -/

theorem lookupA_updAssoc {β : Type} (m : List (Str × β)) (k' k : Str) (v : β) :
    lookupA (updAssoc m k' v) k = if k' = k then some v else lookupA m k := by
  induction m with
  | nil => simp [updAssoc, lookupA]
  | cons p rest ih =>
    obtain ⟨a, b⟩ := p
    simp only [updAssoc]
    by_cases hak' : a = k'
    · subst hak'
      simp only [if_pos rfl, lookupA]
      by_cases hk : a = k <;> simp [hk]
    · simp only [if_neg hak', lookupA]
      by_cases hak : a = k
      · subst hak
        have hne : ¬ a = k' := hak'
        have hne' : ¬ k' = a := fun h => hne h.symm
        simp [hne']
      · simp [hak, ih]

theorem takeWhile_all {p : Char → Bool} :
    ∀ l : Str, (∀ c ∈ l, p c = true) → l.takeWhile p = l := by
  intro l h
  induction l with
  | nil => rfl
  | cons c rest ih =>
    have hc := h c (by simp)
    simp only [List.takeWhile_cons, hc, if_pos]
    rw [ih (fun d hd => h d (by simp [hd]))]

theorem isPre_append_self : ∀ l t : Str, isPre l (l ++ t) = true := by
  intro l t
  induction l with
  | nil => rfl
  | cons a as ih => simp [isPre, ih]

theorem replAux_skip_ge (pat rep : Str) :
    ∀ (l : Str) (k : Nat), l.length ≤ k → replAux pat rep k l = [] := by
  intro l
  induction l with
  | nil => intro k _; cases k <;> rfl
  | cons c rest ih =>
    intro k hk
    cases k with
    | zero => simp at hk
    | succ k' => exact ih k' (by simpa using hk)

theorem replAux_no_occ (pat rep : Str) :
    ∀ l : Str, hasOcc pat l = false → replAux pat rep 0 l = l := by
  intro l
  induction l with
  | nil => intro _; rfl
  | cons c rest ih =>
    intro h
    simp only [hasOcc, Bool.or_eq_false_iff] at h
    simp only [replAux, h.1, Bool.false_eq_true, and_false, if_neg, not_false_eq_true,
      ne_eq, false_and]
    rw [ih h.2]

theorem replAux_skip_append (pat rep : Str) :
    ∀ (xs t : Str), replAux pat rep xs.length (xs ++ t) = replAux pat rep 0 t := by
  intro xs t
  induction xs with
  | nil => rfl
  | cons x xs ih => simpa [replAux] using ih

theorem replAll_head (pat rep t : Str) (hp : pat ≠ []) (ht : hasOcc pat t = false) :
    replAll pat rep (pat ++ t) = rep ++ t := by
  cases pat with
  | nil => exact absurd rfl hp
  | cons p ps =>
    show replAux (p :: ps) rep 0 (p :: (ps ++ t)) = rep ++ t
    rw [show replAux (p :: ps) rep 0 (p :: (ps ++ t)) =
        rep ++ replAux (p :: ps) rep ((p :: ps).length - 1) (ps ++ t) from ?_]
    · simp only [List.length_cons, Nat.add_sub_cancel]
      rw [show (ps.length : Nat) = ps.length from rfl, replAux_skip_append,
        replAux_no_occ _ _ _ ht]
    · simp only [replAux]
      rw [if_pos]
      exact ⟨by simp, by simpa using isPre_append_self (p :: ps) t⟩

theorem replAux_prepend (pat rep : Str) :
    ∀ (l₁ t : Str), occBefore pat l₁ t = false →
      replAux pat rep 0 (l₁ ++ t) = l₁ ++ replAux pat rep 0 t := by
  intro l₁
  induction l₁ with
  | nil => intro t _; rfl
  | cons c r ih =>
    intro t h
    simp only [occBefore, Bool.or_eq_false_iff] at h
    show replAux pat rep 0 (c :: (r ++ t)) = c :: (r ++ replAux pat rep 0 t)
    simp only [replAux, h.1, Bool.false_eq_true, and_false, if_neg, not_false_eq_true,
      ne_eq, false_and]
    rw [ih t h.2]

theorem replAll_exact (pat rep l₁ t : Str) (hp : pat ≠ [])
    (h1 : occBefore pat l₁ (pat ++ t) = false) (h2 : hasOcc pat t = false) :
    replAll pat rep (l₁ ++ pat ++ t) = l₁ ++ rep ++ t := by
  rw [List.append_assoc l₁ pat t, List.append_assoc l₁ rep t]
  show replAux pat rep 0 (l₁ ++ (pat ++ t)) = l₁ ++ (rep ++ t)
  rw [replAux_prepend pat rep l₁ (pat ++ t) h1]
  rw [show replAux pat rep 0 (pat ++ t) = replAll pat rep (pat ++ t) from rfl]
  rw [replAll_head pat rep t hp h2]

theorem split_ne_nil (sep : Char) : ∀ l : Str, splitCh sep l ≠ [] := by
  intro l
  cases l with
  | nil => simp [splitCh]
  | cons c rest =>
    simp only [splitCh]
    by_cases hc : c = sep
    · simp [hc]
    · simp only [hc, if_neg, not_false_eq_true]
      cases h : splitCh sep rest <;> simp

theorem split_prepend (sep : Char) :
    ∀ (a b : Str), (∀ c ∈ a, ¬(c = sep)) → splitCh sep (a ++ sep :: b) = a :: splitCh sep b := by
  intro a
  induction a with
  | nil => intro b _; simp [splitCh]
  | cons x a' ih =>
    intro b h
    have hx := h x (by simp)
    show splitCh sep (x :: (a' ++ sep :: b)) = (x :: a') :: splitCh sep b
    simp only [splitCh, hx, if_neg, not_false_eq_true]
    rw [ih b (fun c hc => h c (by simp [hc]))]

theorem split_noSep (sep : Char) :
    ∀ a : Str, (∀ c ∈ a, ¬(c = sep)) → splitCh sep a = [a] := by
  intro a
  induction a with
  | nil => intro _; rfl
  | cons x a' ih =>
    intro h
    have hx := h x (by simp)
    simp only [splitCh, hx, if_neg, not_false_eq_true]
    rw [ih (fun c hc => h c (by simp [hc]))]

theorem join_split (sep : Char) : ∀ l : Str, joinCh sep (splitCh sep l) = l := by
  intro l
  induction l with
  | nil => rfl
  | cons c rest ih =>
    obtain ⟨g, gs, hg⟩ : ∃ g gs, splitCh sep rest = g :: gs := by
      cases h : splitCh sep rest with
      | nil => exact absurd h (split_ne_nil _ _)
      | cons g gs => exact ⟨g, gs, rfl⟩
    by_cases hc : c = sep
    · simp only [splitCh, hc, if_pos rfl]
      rw [hg] at ih ⊢
      simpa [joinCh] using ih
    · simp only [splitCh, hc, if_neg, not_false_eq_true]
      rw [hg] at ih ⊢
      cases gs with
      | nil =>
        simp only [joinCh] at ih ⊢
        rw [ih]
      | cons g1 gs1 =>
        simp only [joinCh] at ih ⊢
        rw [← ih]
        simp

theorem idxFirst_spec (p : Str → Bool) :
    ∀ (pre : List Str) (t : Str) (rest : List Str),
      (∀ x ∈ pre, p x = false) → p t = true →
      idxFirst p (pre ++ t :: rest) = some pre.length := by
  intro pre
  induction pre with
  | nil => intro t rest _ ht; simp [idxFirst, ht]
  | cons x pre' ih =>
    intro t rest h ht
    have hx := h x (by simp)
    show idxFirst p (x :: (pre' ++ t :: rest)) = some (pre'.length + 1)
    simp only [idxFirst, hx, Bool.false_eq_true, if_neg, not_false_eq_true,
      ih t rest (fun y hy => h y (by simp [hy])) ht, Option.map_some']

theorem getD_drop {α : Type} (d : α) :
    ∀ (l : List α) (n : Nat), l.getD n d = ((l.drop n).headD d) := by
  intro l
  induction l with
  | nil => intro n; cases n <;> rfl
  | cons x xs ih =>
    intro n
    cases n with
    | zero => rfl
    | succ n' => simp only [List.getD] at ih ⊢; exact ih n'

theorem dict_last_aux (k : Str) :
    ∀ (ms : List (Str × Nat)) (acc : List (Str × Nat)),
      lookupA (ms.foldl (fun m p => updAssoc m p.1 p.2) acc) k =
        ms.foldl (fun a p => if p.1 = k then some p.2 else a) (lookupA acc k) := by
  intro ms
  induction ms with
  | nil => intro acc; rfl
  | cons q rest ih =>
    intro acc
    simp only [List.foldl_cons]
    rw [ih (updAssoc acc q.1 q.2), lookupA_updAssoc]

theorem glm_lookup (valid : List Str) (vl : List Str) :
    ∀ (ns : List Str) (acc : List (Str × Str)) (k : Str),
      (lookupA acc k = some (mapOneLocator k vl) ∨ (k ∈ ns ∧ memB k valid = false)) →
      lookupA
        (ns.foldl
          (fun m n => if memB n valid then m else updAssoc m n (mapOneLocator n vl)) acc)
        k = some (mapOneLocator k vl) := by
  intro ns
  induction ns with
  | nil =>
    intro acc k h
    rcases h with h | ⟨h, _⟩
    · simpa using h
    · cases h
  | cons x rest ih =>
    intro acc k h
    simp only [List.foldl_cons]
    apply ih
    rcases h with h | ⟨hk, hc⟩
    · left
      by_cases hx : memB x valid = true
      · simp only [hx, if_true]
        exact h
      · simp only [hx, if_false, Bool.false_eq_true, if_neg, not_false_eq_true]
        rw [lookupA_updAssoc]
        by_cases hxk : x = k
        · subst hxk; simp
        · simpa [hxk] using h
    · rcases List.mem_cons.mp hk with rfl | hkrest
      · left
        simp only [hc, Bool.false_eq_true, if_neg, not_false_eq_true]
        rw [lookupA_updAssoc]
        simp
      · right
        exact ⟨hkrest, hc⟩

theorem hasOcc_nil_of_ne (pat : Str) (hp : pat ≠ []) : hasOcc pat [] = false := by
  cases pat with
  | nil => exact absurd rfl hp
  | cons p ps => rfl

theorem remOccs_self (pat : Str) (hp : pat ≠ []) : remOccs pat pat = [] := by
  have h := replAll_head pat [] [] hp (hasOcc_nil_of_ne pat hp)
  simpa using h

theorem tryTokAt_UL (ds : Str) (hne : ds ≠ []) (hdig : ∀ c ∈ ds, Char.isDigit c = true) :
    tryTokAt (cs "UL") ('U' :: 'L' :: ds) = some ('U' :: 'L' :: ds) := by
  unfold tryTokAt
  rw [show (cs "UL") = ['U', 'L'] from rfl]
  rw [show isPre ['U', 'L'] ('U' :: 'L' :: ds) = true from by simp [isPre]]
  simp only [if_true, List.length_cons, List.length_nil]
  rw [show List.drop (0 + 1 + 1) ('U' :: 'L' :: ds) = ds from rfl]
  unfold takeDigits
  rw [takeWhile_all ds hdig]
  simp [hne]

theorem findTok_UL (ds : Str) (hne : ds ≠ []) (hdig : ∀ c ∈ ds, Char.isDigit c = true) :
    findTok (cs "UL") ('U' :: 'L' :: ds) = some ('U' :: 'L' :: ds) := by
  show (match tryTokAt (cs "UL") ('U' :: 'L' :: ds) with
        | some m => some m
        | none => findTok (cs "UL") ('L' :: ds)) = some ('U' :: 'L' :: ds)
  rw [tryTokAt_UL ds hne hdig]

theorem parse_UL_only (ds s : Str) (hne : ds ≠ []) (hdig : ∀ c ∈ ds, Char.isDigit c = true) :
    ( parse_notation ('U' :: 'L' :: ds) s).weapons = [] ∧
      ( parse_notation ('U' :: 'L' :: ds) s).large_utility = digitsVal ds := by
  have h1 := findTok_UL ds hne hdig
  have h2 : remOccs ('U' :: 'L' :: ds) ('U' :: 'L' :: ds) = [] :=
    remOccs_self _ (by simp)
  unfold parse_notation
  rw [h1]
  simp only [h2]
  constructor <;> rfl

theorem total_points_spec (nota s : Str) :
    ( parse_notation nota s).total_points = specTotalPoints ( parse_notation nota s) s := by
  unfold parse_notation specTotalPoints weaponPts
  have hUL : (lookupA UTILITY_COSTS (cs "UL")).getD 0 = 4 := rfl
  have hUS : (lookupA UTILITY_COSTS (cs "US")).getD 0 = 1 := rfl
  simp only [hUL, hUS]
  ring

theorem tier_from_points (nota s : Str) :
    ( parse_notation nota s).tier = tierOf ( parse_notation nota s).total_points := by
  unfold parse_notation
  rfl

theorem tierOf_gt999 (p : Nat) (hp : 999 < p) : tierOf p = cs "common" := by
  unfold tierOf
  rw [show TIER_THRESHOLDS.find? (fun t => t.2.1 ≤ p && p ≤ t.2.2) = none from ?_]
  rw [List.find?_eq_none]
  intro t ht
  simp only [TIER_THRESHOLDS] at ht
  simp only [List.mem_cons, List.mem_singleton] at ht
  rcases ht with rfl | rfl | rfl | rfl | rfl | h
  · simp only [Bool.and_eq_true, decide_eq_true_eq]
    omega
  · simp only [Bool.and_eq_true, decide_eq_true_eq]
    omega
  · simp only [Bool.and_eq_true, decide_eq_true_eq]
    omega
  · simp only [Bool.and_eq_true, decide_eq_true_eq]
    omega
  · simp only [Bool.and_eq_true, decide_eq_true_eq]
    omega
  · cases h

theorem maxFold_mem : ∀ (es : List (Str × List Str)) (p : Str × List Str),
    maxFold p es = p ∨ maxFold p es ∈ es := by
  intro es
  induction es with
  | nil => intro p; left; rfl
  | cons e rest ih =>
    intro p
    rcases ih (if e.2.length > p.2.length then e else p) with h | h
    · by_cases hc : e.2.length > p.2.length
      · right
        show maxFold (if e.2.length > p.2.length then e else p) rest ∈ e :: rest
        rw [h, if_pos hc]
        exact List.mem_cons_self e rest
      · left
        show maxFold (if e.2.length > p.2.length then e else p) rest = p
        rw [h, if_neg hc]
    · right
      show maxFold (if e.2.length > p.2.length then e else p) rest ∈ e :: rest
      exact List.mem_cons_of_mem e h

theorem maxFold_ge : ∀ (es : List (Str × List Str)) (p q : Str × List Str),
    q ∈ p :: es → q.2.length ≤ (maxFold p es).2.length := by
  intro es
  induction es with
  | nil =>
    intro p q hq
    rcases List.mem_cons.mp hq with rfl | h
    · exact Nat.le_refl _
    · cases h
  | cons e rest ih =>
    intro p q hq
    show q.2.length ≤ (maxFold (if e.2.length > p.2.length then e else p) rest).2.length
    have hp' : p.2.length ≤ (if e.2.length > p.2.length then e else p).2.length := by
      by_cases hc : e.2.length > p.2.length
      · rw [if_pos hc]; omega
      · rw [if_neg hc]
    have he' : e.2.length ≤ (if e.2.length > p.2.length then e else p).2.length := by
      by_cases hc : e.2.length > p.2.length
      · rw [if_pos hc]
      · rw [if_neg hc]; omega
    have hbase :
        (if e.2.length > p.2.length then e else p).2.length ≤
          (maxFold (if e.2.length > p.2.length then e else p) rest).2.length :=
      ih _ _ (by simp)
    rcases List.mem_cons.mp hq with rfl | hq'
    · exact Nat.le_trans hp' hbase
    · rcases List.mem_cons.mp hq' with rfl | hq'' 
      · exact Nat.le_trans he' hbase
      · exact ih _ _ (List.mem_cons_of_mem _ hq'')

theorem feLoop_cons (w : List (Str × Nat)) (name : Str) (locs : List Str)
    (rest : List (Str × List Str)) (be : Option Str) (bs : Int) (bl : LocMap)
    (fe : Option Str) (fl : LocMap) :
    feLoop w ((name, locs) :: rest) be bs bl fe fl =
      (let upd : Bool := pyFalsy fe || locs.length > ((lookupA fl (cs "all")).getD []).length
       let fe' := if upd then some name else fe
       let fl' := if upd then fbMap locs else fl
       match locs.find? isUniversal with
       | some u => (some name, univMap u)
       | none =>
         let sc := scoreOf w locs
         if sc.2 && sc.1 > bs then
           feLoop w rest (some name) sc.1 (bestMap locs) fe' fl'
         else
           feLoop w rest be bs bl fe' fl') := rfl

theorem feLoop_fallback (w : List (Str × Nat)) :
    ∀ (es : List (Str × List Str)) (bs : Int) (bl : LocMap) (n0 : Str) (ls0 : List Str),
      n0 ≠ [] →
      (∀ p ∈ es, p.1 ≠ []) →
      (∀ p ∈ es, ∀ u ∈ p.2, isUniversal u = false) →
      (∀ p ∈ es, (scoreOf w p.2).2 = false) →
      feLoop w es none bs bl (some n0) (fbMap ls0) =
        (some (maxFold (n0, ls0) es).1, fbMap (maxFold (n0, ls0) es).2) := by
  intro es
  induction es with
  | nil =>
    intro bs bl n0 ls0 h0 _ _ _
    simp only [feLoop, maxFold, List.foldl_nil]
    simp [pyFalsy, h0]
  | cons e rest ih =>
    intro bs bl n0 ls0 h0 hnames huniv hsupp
    obtain ⟨name, locs⟩ := e
    have hu : locs.find? isUniversal = none := by
      rw [List.find?_eq_none]
      intro u hu
      simp [huniv (name, locs) (by simp) u hu]
    have hs : (scoreOf w locs).2 = false := hsupp (name, locs) (by simp)
    have hname : name ≠ [] := hnames (name, locs) (by simp)
    have hpf : pyFalsy (some n0) = false := by simp [pyFalsy, h0]
    have hlook : lookupA (fbMap ls0) (cs "all") = some ls0 := rfl
    rw [feLoop_cons]
    simp only [hu, hs, hpf, hlook, Option.getD_some, Bool.false_and, Bool.false_or,
      Bool.false_eq_true, if_false]
    by_cases hcmp : locs.length > ls0.length
    · have hmf : maxFold (n0, ls0) ((name, locs) :: rest) = maxFold (name, locs) rest := by
        simp only [maxFold, List.foldl_cons]
        rw [if_pos (by simpa using hcmp)]
      rw [hmf]
      simp only [decide_eq_true hcmp, eq_self_iff_true, if_true]
      exact ih bs bl name locs hname
        (fun p hp => hnames p (List.mem_cons_of_mem _ hp))
        (fun p hp => huniv p (List.mem_cons_of_mem _ hp))
        (fun p hp => hsupp p (List.mem_cons_of_mem _ hp))
    · have hmf : maxFold (n0, ls0) ((name, locs) :: rest) = maxFold (n0, ls0) rest := by
        simp only [maxFold, List.foldl_cons]
        rw [if_neg (by simpa using hcmp)]
      rw [hmf]
      simp only [decide_eq_false hcmp, Bool.false_eq_true, if_false]
      exact ih bs bl n0 ls0 h0
        (fun p hp => hnames p (List.mem_cons_of_mem _ hp))
        (fun p hp => huniv p (List.mem_cons_of_mem _ hp))
        (fun p hp => hsupp p (List.mem_cons_of_mem _ hp))

theorem feLoop_universal (w : List (Str × Nat)) :
    ∀ (es : List (Str × List Str)) (be : Option Str) (bs : Int) (bl : LocMap)
      (fe : Option Str) (fl : LocMap),
      (∃ p ∈ es, ∃ u ∈ p.2, isUniversal u = true) →
      ∃ n ls u, (n, ls) ∈ es ∧ u ∈ ls ∧ isUniversal u = true ∧
        feLoop w es be bs bl fe fl = (some n, univMap u) := by
  intro es
  induction es with
  | nil =>
    intro be bs bl fe fl h
    rcases h with ⟨p, hp, _⟩
    cases hp
  | cons e rest ih =>
    intro be bs bl fe fl h
    obtain ⟨name, locs⟩ := e
    cases hu : locs.find? isUniversal with
    | some u =>
      refine ⟨name, locs, u, by simp, List.mem_of_find?_eq_some hu,
        List.find?_some hu, ?_⟩
      rw [feLoop_cons]
      simp only [hu]
    | none =>
      have hrest : ∃ p ∈ rest, ∃ u ∈ p.2, isUniversal u = true := by
        rcases h with ⟨p, hp, u, hu', hU⟩
        rcases List.mem_cons.mp hp with rfl | hmem
        · have := List.find?_eq_none.mp hu u hu'
          simp [hU] at this
        · exact ⟨p, hmem, u, hu', hU⟩
      rw [feLoop_cons]
      simp only [hu]
      by_cases hsc : ((scoreOf w locs).2 && (scoreOf w locs).1 > bs) = true
      · rw [if_pos hsc]
        obtain ⟨n, ls, u, hmem, hul, hU, heq⟩ := ih (some name) (scoreOf w locs).1
          (bestMap locs) _ _ hrest
        exact ⟨n, ls, u, List.mem_cons_of_mem _ hmem, hul, hU, heq⟩
      · rw [if_neg hsc]
        obtain ⟨n, ls, u, hmem, hul, hU, heq⟩ := ih be bs bl _ _ hrest
        exact ⟨n, ls, u, List.mem_cons_of_mem _ hmem, hul, hU, heq⟩

theorem if_upd_truthy (name : Str) (hname : name ≠ []) (fe : Option Str) (x : Bool) :
    ∃ f', (if (pyFalsy fe || x) = true then some name else fe) = some f' ∧ f' ≠ [] := by
  by_cases hu : (pyFalsy fe || x) = true
  · exact ⟨name, by rw [if_pos hu], hname⟩
  · have hp : pyFalsy fe = false :=
      (Bool.or_eq_false_iff.mp (eq_false_of_ne_true hu)).1
    cases fe with
    | none => simp [pyFalsy] at hp
    | some f =>
      refine ⟨f, by rw [if_neg hu], ?_⟩
      simp only [pyFalsy] at hp
      exact of_decide_eq_false hp

theorem feLoop_result_some (w : List (Str × Nat)) :
    ∀ (es : List (Str × List Str)) (be : Option Str) (bs : Int) (bl : LocMap)
      (fe : Option Str) (fl : LocMap),
      (∀ p ∈ es, p.1 ≠ []) →
      (be = none ∨ ∃ b, be = some b ∧ b ≠ []) →
      ((∃ f, fe = some f ∧ f ≠ []) ∨ (∃ b, be = some b ∧ b ≠ []) ∨ es ≠ []) →
      ∃ n, n ≠ [] ∧ (feLoop w es be bs bl fe fl).1 = some n := by
  intro es
  induction es with
  | nil =>
    intro be bs bl fe fl _ hbe hor
    rcases hbe with rfl | ⟨b, rfl, hb⟩
    · rcases hor with ⟨f, rfl, hf⟩ | ⟨b, hbe, _⟩ | hne
      · refine ⟨f, hf, ?_⟩
        show (if pyFalsy none && !pyFalsy (some f) then ((some f : Option Str), fl)
              else ((none : Option Str), bl)).1 = some f
        have h1 : pyFalsy (some f) = false := by simp [pyFalsy, hf]
        rw [show pyFalsy (none : Option Str) = true from rfl, h1]
        rfl
      · cases hbe
      · exact absurd rfl hne
    · refine ⟨b, hb, ?_⟩
      show (if pyFalsy (some b) && !pyFalsy fe then (fe, fl)
            else ((some b : Option Str), bl)).1 = some b
      have h1 : pyFalsy (some b) = false := by simp [pyFalsy, hb]
      rw [h1]
      rfl
  | cons e rest ih =>
    intro be bs bl fe fl hnames hbe _
    obtain ⟨name, locs⟩ := e
    have hname : name ≠ [] := hnames (name, locs) (by simp)
    rw [feLoop_cons]
    cases hu : locs.find? isUniversal with
    | some u =>
      simp only [hu]
      exact ⟨name, hname, rfl⟩
    | none =>
      simp only [hu]
      obtain ⟨f', hfe', hf'⟩ := if_upd_truthy name hname fe
        (decide (locs.length > ((lookupA fl (cs "all")).getD []).length))
      by_cases hsc : ((scoreOf w locs).2 && (scoreOf w locs).1 > bs) = true
      · rw [if_pos hsc]
        exact ih (some name) (scoreOf w locs).1 (bestMap locs) _ _
          (fun p hp => hnames p (List.mem_cons_of_mem _ hp))
          (Or.inr ⟨name, rfl, hname⟩)
          (Or.inl ⟨f', hfe', hf'⟩)
      · rw [if_neg hsc]
        exact ih be bs bl _ _
          (fun p hp => hnames p (List.mem_cons_of_mem _ hp))
          hbe
          (Or.inl ⟨f', hfe', hf'⟩)

theorem maxFold_first : ∀ (es : List (Str × List Str)) (p : Str × List Str),
    ∃ l₁ l₂, p :: es = l₁ ++ maxFold p es :: l₂ ∧
      ∀ q ∈ l₁, q.2.length < (maxFold p es).2.length := by
  intro es
  induction es with
  | nil => intro p; exact ⟨[], [], rfl, by simp⟩
  | cons e rest ih =>
    intro p
    by_cases hc : e.2.length > p.2.length
    · have hstep : maxFold p (e :: rest) = maxFold e rest := by
        simp only [maxFold, List.foldl_cons]
        rw [if_pos (by simpa using hc)]
      obtain ⟨l₁, l₂, hsplit, hlt⟩ := ih e
      refine ⟨p :: l₁, l₂, ?_, ?_⟩
      · rw [hstep, List.cons_append, ← hsplit]
      · intro q hq
        rw [hstep]
        rcases List.mem_cons.mp hq with rfl | hq'
        · have he : e.2.length ≤ (maxFold e rest).2.length := maxFold_ge rest e e (by simp)
          omega
        · exact hlt q hq'
    · have hstep : maxFold p (e :: rest) = maxFold p rest := by
        simp only [maxFold, List.foldl_cons]
        rw [if_neg (by simpa using hc)]
      obtain ⟨l₁, l₂, hsplit, hlt⟩ := ih p
      cases l₁ with
      | nil =>
        simp only [List.nil_append] at hsplit
        injection hsplit with h1 h2
        refine ⟨[], e :: rest, ?_, by simp⟩
        rw [hstep, ← h1]
        rfl
      | cons x l₁' =>
        injection hsplit with h1 h2
        subst h1
        refine ⟨p :: e :: l₁', l₂, ?_, ?_⟩
        · rw [hstep]
          simp only [List.cons_append]
          rw [List.append_eq] at h2
          exact congrArg (fun l => p :: e :: l) h2
        · intro q hq
          rw [hstep]
          have hp : p.2.length < (maxFold p rest).2.length := hlt p (by simp)
          rcases List.mem_cons.mp hq with rfl | hq'
          · exact hp
          · rcases List.mem_cons.mp hq' with rfl | hq''
            · have : q.2.length ≤ p.2.length := by omega
              omega
            · exact hlt q (by simp [hq''])

theorem inTiers_no_underscore (t : Str) (h : inTiers t = true) :
    ∀ c ∈ t, ¬(c = '_') := by
  simp only [inTiers, VALID_TIERS, List.any_eq_true, decide_eq_true_eq] at h
  rcases h with ⟨x, hx, rfl⟩
  fin_cases hx <;> decide

theorem split_join_parts :
    ∀ (sp : List Str), sp ≠ [] → (∀ s ∈ sp, ∀ c ∈ s, ¬(c = '_')) →
      ∀ rest : Str, splitCh '_' (joinCh '_' sp ++ '_' :: rest) = sp ++ splitCh '_' rest := by
  intro sp
  induction sp with
  | nil => intro h; exact absurd rfl h
  | cons p ps ih =>
    intro _ hu rest
    cases ps with
    | nil =>
      show splitCh '_' (p ++ '_' :: rest) = p :: splitCh '_' rest
      exact split_prepend '_' p rest (hu p (by simp))
    | cons q ps' =>
      show splitCh '_' ((p ++ '_' :: joinCh '_' (q :: ps')) ++ '_' :: rest) =
        (p :: q :: ps') ++ splitCh '_' rest
      rw [List.append_assoc]
      simp only [List.cons_append]
      rw [split_prepend '_' p _ (hu p (by simp))]
      rw [ih (by simp) (fun s hs => hu s (by simp [hs])) rest]
      rfl

theorem mkKey_split (sp : List Str) (slot tier nota : Str)
    (hspu : ∀ s ∈ sp, ∀ c ∈ s, ¬(c = '_')) (hsp : sp ≠ [])
    (hslotu : ∀ c ∈ slot, ¬(c = '_')) (htieru : ∀ c ∈ tier, ¬(c = '_')) :
    splitCh '_' (mkKey sp slot tier nota) =
      cs "PBSS" :: (sp ++ slot :: tier :: splitCh '_' nota) := by
  unfold mkKey
  simp only [List.cons_append, List.append_assoc]
  rw [split_prepend '_' (cs "PBSS") _ (by decide)]
  rw [split_join_parts sp hsp hspu]
  rw [split_prepend '_' slot _ hslotu]
  rw [split_prepend '_' tier _ htieru]

theorem fix_key_general (known : Str → Bool) (sp : List Str) (slot tier nota : Str)
    (hspu : ∀ s ∈ sp, ∀ c ∈ s, ¬(c = '_'))
    (hspt : ∀ s ∈ sp, inTiers s = false)
    (hsp : sp ≠ [])
    (hslotu : ∀ c ∈ slot, ¬(c = '_'))
    (hslott : inTiers slot = false)
    (htier : inTiers tier = true)
    (hknown : known (lowS (joinCh '_' sp)) = true)
    (hocc1 : occBefore (('_' :: tier) ++ ['_'])
        (cs "PBSS" ++ '_' :: (joinCh '_' sp ++ '_' :: slot))
        ((('_' :: tier) ++ ['_']) ++ nota) = false)
    (hocc2 : hasOcc (('_' :: tier) ++ ['_']) nota = false)
    (hdiff : uppS ( parse_notation nota (lowS (joinCh '_' sp))).tier ≠ tier) :
    fix_key known (mkKey sp slot tier nota) =
      some (mkKey sp slot (uppS ( parse_notation nota (lowS (joinCh '_' sp))).tier) nota) := by
  have htieru := inTiers_no_underscore tier htier
  have hsplit := mkKey_split sp slot tier nota hspu hsp hslotu htieru
  have hnne := split_ne_nil '_' nota
  have hsplen : 1 ≤ (splitCh '_' nota).length := List.length_pos.mpr hnne
  have hsplen2 : 1 ≤ sp.length := List.length_pos.mpr hsp
  have hidx : idxFirst inTiers (cs "PBSS" :: (sp ++ slot :: tier :: splitCh '_' nota)) =
      some (sp.length + 2) := by
    have hpre : ∀ x ∈ (cs "PBSS" :: sp ++ [slot]), inTiers x = false := by
      intro x hx
      rcases List.mem_cons.mp hx with rfl | hx'
      · decide
      · rcases List.mem_append.mp hx' with hx'' | hx''
        · exact hspt x hx''
        · rcases List.mem_singleton.mp hx'' with rfl
          exact hslott
    have h := idxFirst_spec inTiers (cs "PBSS" :: sp ++ [slot]) tier (splitCh '_' nota) hpre htier
    have hshape : (cs "PBSS" :: sp ++ [slot]) ++ tier :: splitCh '_' nota =
        cs "PBSS" :: (sp ++ slot :: tier :: splitCh '_' nota) := by
      simp
    have hlen : (cs "PBSS" :: sp ++ [slot]).length = sp.length + 2 := by
      simp
    rw [hshape, hlen] at h
    exact h
  have hcur : (cs "PBSS" :: (sp ++ slot :: tier :: splitCh '_' nota)).getD (sp.length + 2) [] =
      tier := by
    rw [getD_drop]
    rw [show sp.length + 2 = (sp.length + 1) + 1 from rfl, List.drop_succ_cons]
    rw [← List.drop_drop]
    rw [List.drop_left]
    rfl
  have hnota : joinCh '_'
      ((cs "PBSS" :: (sp ++ slot :: tier :: splitCh '_' nota)).drop (sp.length + 2 + 1)) =
      nota := by
    rw [List.drop_succ_cons]
    rw [← List.drop_drop]
    rw [List.drop_left]
    rw [show List.drop 2 (slot :: tier :: splitCh '_' nota) = splitCh '_' nota from rfl]
    exact join_split '_' nota
  have hship : lowS (joinCh '_'
      (((cs "PBSS" :: (sp ++ slot :: tier :: splitCh '_' nota)).drop 1).take
        (sp.length + 2 - 1 - 1))) = lowS (joinCh '_' sp) := by
    rw [show (cs "PBSS" :: (sp ++ slot :: tier :: splitCh '_' nota)).drop 1 =
        sp ++ slot :: tier :: splitCh '_' nota from rfl]
    rw [show sp.length + 2 - 1 - 1 = sp.length from by omega]
    rw [List.take_left]
  have hguard : ¬((cs "PBSS" :: (sp ++ slot :: tier :: splitCh '_' nota)).length < 5 ∨
      (cs "PBSS" :: (sp ++ slot :: tier :: splitCh '_' nota)).headD [] ≠ cs "PBSS") := by
    push_neg
    constructor
    · simp only [List.length_cons, List.length_append]
      omega
    · rfl
  simp only [fix_key, hsplit]
  rw [if_neg hguard]
  simp only [hidx]
  simp only [hcur, hnota, hship, hknown, if_true]
  rw [if_pos hdiff]
  congr 1
  have hshape2 : mkKey sp slot tier nota =
      (cs "PBSS" ++ '_' :: (joinCh '_' sp ++ '_' :: slot)) ++ (('_' :: tier) ++ ['_']) ++ nota := by
    unfold mkKey
    simp [List.cons_append, List.append_assoc]
  rw [hshape2]
  rw [replAll_exact _ _ _ _ (by simp) hocc1 hocc2]
  unfold mkKey
  simp [List.cons_append, List.append_assoc]

/-! ## Claims -/

/-- Claim C1 (amended): for every notation string and ship type,
`total_points` equals the sum over the parsed weapon kinds of
`WEAPON_COSTS[kind] * count` plus `large_utility * 4` plus
`small_utility * 1` plus `aux * auxCost(shipType)` (default aux cost 4), and
`tier` is the first `TIER_THRESHOLDS` bucket whose range contains
`total_points`, defaulting to `"common"` when the total exceeds 999 and no
bucket matches; `parse_notation("T1UL1", "battleship")` yields weapons
`{T:1}`, largeUtility 1, smallUtility 0, aux 0, totalPoints 20, tier
`"common"`, and `parse_notation("T2X1UL2", "battleship")` yields totalPoints
48 and tier `"ultra"`. -/
theorem claim_C1 :
    (∀ nota s : Str,
        ( parse_notation nota s).total_points = specTotalPoints ( parse_notation nota s) s ∧
          ( parse_notation nota s).tier = tierOf ( parse_notation nota s).total_points) ∧
    (∀ p : Nat, 999 < p → tierOf p = cs "common") ∧
    parse_notation (cs "T1UL1") (cs "battleship") =
      { nota := cs "T1UL1", weapons := [(cs "T", 1)], large_utility := 1,
        small_utility := 0, aux := 0, total_points := 20, tier := cs "common" } ∧
    ( parse_notation (cs "T2X1UL2") (cs "battleship")).total_points = 48 ∧
    ( parse_notation (cs "T2X1UL2") (cs "battleship")).tier = cs "ultra" :=
  ⟨fun nota s => ⟨total_points_spec nota s, tier_from_points nota s⟩,
   tierOf_gt999, by decide, by decide, by decide⟩

/-- Claim C1 counterexample: at notation `"X125"` (battleship) the total is
1000, no `TIER_THRESHOLDS` bucket contains 1000 (the last bucket is capped at
999), and the assigned tier is the loop default `"common"` — so the tier is
not "the threshold bucket of the ordered list containing total_points". -/
theorem claim_C1_counterexample :
    ( parse_notation (cs "X125") (cs "battleship")).total_points = 1000 ∧
    ( parse_notation (cs "X125") (cs "battleship")).tier = cs "common" ∧
    TIER_THRESHOLDS.all (fun t => !(t.2.1 ≤ 1000 && 1000 ≤ t.2.2)) = true := by
  refine ⟨by decide, by decide, by decide⟩

/-- Claim C1 witness: the amended default-tier clause evaluated at 1000. -/
theorem claim_C1_witness : 999 < 1000 ∧ tierOf 1000 = cs "common" :=
  ⟨by decide, claim_C1.2.1 1000 (by decide)⟩

/-- Claim C2 (code bug): `parse_notation("T63", "battleship")` has
totalPoints 1008 ≥ 53, yet its tier is `"common"`, not `"ultimate"`: the
final bucket of `TIER_THRESHOLDS` is capped at 999, so totals above 999 fall
through the loop to the `"common"` default, contradicting the module
docstring's `Ultimate: 53+`. -/
theorem claim_C2 :
    ( parse_notation (cs "T63") (cs "battleship")).total_points = 1008 ∧
    53 ≤ ( parse_notation (cs "T63") (cs "battleship")).total_points ∧
    ( parse_notation (cs "T63") (cs "battleship")).tier = cs "common" ∧
    ( parse_notation (cs "T63") (cs "battleship")).tier ≠ cs "ultimate" := by
  refine ⟨by decide, by decide, by decide, by decide⟩

/-- Claim C3: the names `TIER_MULTIPLIERS`, `DEFAULT_BASE_POINTS` and
`SHIP_BASE_POINTS` that fix_section_errors.py requires of the
generate_sections module (module-level import, line 19, and attribute
update, line 102) are not among the module-level names generate_sections.py
defines — the module defines `TIER_COST_MULT` and no base-points table — so
the module-level `from generate_sections import ...` raises `ImportError`
before any record is processed. -/
theorem claim_C3 :
    ¬"TIER_MULTIPLIERS" ∈ generateSectionsModuleNames ∧
    ¬"DEFAULT_BASE_POINTS" ∈ generateSectionsModuleNames ∧
    ¬"SHIP_BASE_POINTS" ∈ generateSectionsModuleNames ∧
    "TIER_COST_MULT" ∈ generateSectionsModuleNames ∧
    "parse_notation" ∈ generateSectionsModuleNames ∧
    fixSectionErrorsRequiredNames.all
      (fun n => memB n generateSectionsModuleNames) = false := by
  refine ⟨by decide, by decide, by decide, by decide, by decide, by decide⟩

/-- Claim C4 (amended): `parse_notation` extracts and removes the first
`UL<n>`, `US<n>` and `AUX<n>` tokens (deleting every copy of each exact
matched text) from the working string before scanning for weapon tokens: a
notation that is a single `UL` token (`"UL" ++ digits`) yields that large
utility count and an empty weapons map (no `L` weapon), and `"T1UL1"` yields
exactly weapons `{T:1}` with largeUtility 1. -/
theorem claim_C4 :
    (∀ (ds s : Str), ds ≠ [] → (∀ c ∈ ds, Char.isDigit c = true) →
        ( parse_notation ('U' :: 'L' :: ds) s).weapons = [] ∧
          ( parse_notation ('U' :: 'L' :: ds) s).large_utility = digitsVal ds) ∧
    ( parse_notation (cs "UL3") (cs "battleship")).weapons = [] ∧
    ( parse_notation (cs "UL3") (cs "battleship")).large_utility = 3 ∧
    ( parse_notation (cs "T1UL1") (cs "battleship")).weapons = [(cs "T", 1)] ∧
    ( parse_notation (cs "T1UL1") (cs "battleship")).large_utility = 1 :=
  ⟨parse_UL_only, by decide, by decide, by decide, by decide⟩

/-- Claim C4 counterexample: only the first `UL` token is removed, so in
`"UL2UL3"` the second utility token survives into the weapon scan and is
miscounted as the weapon `L:3` — the claim's "utility codes are never
miscounted as weapons" fails. -/
theorem claim_C4_counterexample :
    ( parse_notation (cs "UL2UL3") (cs "battleship")).large_utility = 2 ∧
    ( parse_notation (cs "UL2UL3") (cs "battleship")).weapons = [(cs "L", 3)] ∧
    ( parse_notation (cs "UL2UL3") (cs "battleship")).weapons ≠ [] := by
  refine ⟨by decide, by decide, by decide⟩

/-- Claim C4 witness: the single-token clause evaluated at `"UL3"`. -/
theorem claim_C4_witness :
    (['3'] : Str) ≠ [] ∧ (∀ c ∈ (['3'] : Str), Char.isDigit c = true) ∧
    ( parse_notation ('U' :: 'L' :: ['3']) (cs "battleship")).weapons = [] ∧
    ( parse_notation ('U' :: 'L' :: ['3']) (cs "battleship")).large_utility = digitsVal ['3'] :=
  ⟨by decide, by decide,
   (claim_C4.1 ['3'] (cs "battleship") (by decide) (by decide)).1,
   (claim_C4.1 ['3'] (cs "battleship") (by decide) (by decide)).2⟩

/-- Claim C5 (amended): whenever the (shipType, slot) context has at least
one candidate entity and all candidate names are non-empty,
`find_entity_for_design` returns a non-null entity — on every path
(universal-locator return, best-coverage scoring, or fallback); and when
additionally no candidate has a universal locator and none fully supports
the requested weapons, the returned entity is exactly the first candidate
with the largest total locator count (the split conjunct shows every
candidate strictly before the selected one has strictly fewer locators),
with the fallback locator map `fbMap` that sends every attachment category
except `small_gun` to the singleton of that entity's first locator
(`"root"` when it has none) and sends `small_gun` to the entity's full
locator list. -/
theorem claim_C5 :
    (∀ (w : List (Str × Nat)) (es : List (Str × List Str)),
        es ≠ [] → (∀ p ∈ es, p.1 ≠ []) →
        ∃ n, n ≠ [] ∧ ( find_entity_for_design w es).1 = some n) ∧
    (∀ (w : List (Str × Nat)) (e : Str × List Str) (rest : List (Str × List Str)),
        (∀ p ∈ e :: rest, p.1 ≠ []) →
        (∀ p ∈ e :: rest, ∀ u ∈ p.2, isUniversal u = false) →
        (∀ p ∈ e :: rest, (scoreOf w p.2).2 = false) →
        find_entity_for_design w (e :: rest) =
          (some (maxFold e rest).1, fbMap (maxFold e rest).2) ∧
        maxFold e rest ∈ e :: rest ∧
        (∀ q ∈ e :: rest, q.2.length ≤ (maxFold e rest).2.length) ∧
        (∃ l₁ l₂, e :: rest = l₁ ++ maxFold e rest :: l₂ ∧
          ∀ q ∈ l₁, q.2.length < (maxFold e rest).2.length)) := by
  constructor
  · intro w es hne hnames
    obtain ⟨e, rest, rfl⟩ : ∃ e rest, es = e :: rest := by
      cases es with
      | nil => exact absurd rfl hne
      | cons e rest => exact ⟨e, rest, rfl⟩
    obtain ⟨n, hn, hres⟩ := feLoop_result_some w (e :: rest) none (-1) [] none []
      hnames (Or.inl rfl) (Or.inr (Or.inr (by simp)))
    refine ⟨n, hn, ?_⟩
    show (feLoop w (e :: rest) none (-1) [] none []).1 = some n
    exact hres
  · intro w e rest hnames huniv hsupp
    obtain ⟨n0, ls0⟩ := e
    have hu : ls0.find? isUniversal = none := by
      rw [List.find?_eq_none]
      intro u hu
      simp [huniv (n0, ls0) (by simp) u hu]
    have hs : (scoreOf w ls0).2 = false := hsupp (n0, ls0) (by simp)
    have hstep : find_entity_for_design w ((n0, ls0) :: rest) =
        feLoop w rest none (-1) [] (some n0) (fbMap ls0) := by
      show feLoop w ((n0, ls0) :: rest) none (-1) [] none [] = _
      rw [feLoop_cons]
      simp only [hu, hs, pyFalsy, Bool.true_or, if_true, Bool.false_and,
        Bool.false_eq_true, if_false]
    refine ⟨?_, ?_, ?_, ?_⟩
    · rw [hstep, feLoop_fallback w rest (-1) [] n0 ls0 (hnames (n0, ls0) (by simp))
        (fun p hp => hnames p (List.mem_cons_of_mem _ hp))
        (fun p hp => huniv p (List.mem_cons_of_mem _ hp))
        (fun p hp => hsupp p (List.mem_cons_of_mem _ hp))]
    · rcases maxFold_mem rest (n0, ls0) with h | h
      · rw [h]
        exact List.mem_cons_self _ _
      · exact List.mem_cons_of_mem _ h
    · intro q hq
      exact maxFold_ge rest (n0, ls0) q hq
    · exact maxFold_first rest (n0, ls0)

/-- Claim C5 counterexample: (a) in the fallback the `small_gun` category is
mapped to the entity's full locator list `["a", "b"]`, not to the
first-locator singleton `["a"]`; (b) a context whose only candidate entity
has the empty-string name returns a null entity (Python truthiness), though
the context has one candidate. -/
theorem claim_C5_counterexample :
    (lookupA ( find_entity_for_design [(cs "L", 1)] [(cs "e", [cs "a", cs "b"])]).2
        (cs "small_gun") = some [cs "a", cs "b"] ∧
      some [cs "a", cs "b"] ≠ some [cs "a"]) ∧
    ( find_entity_for_design [(cs "L", 1)] [([], [])] = (none, []) ∧
      ([(([] : Str), ([] : List Str))] : List (Str × List Str)) ≠ []) := by
  refine ⟨⟨by decide, by decide⟩, ⟨by decide, by decide⟩⟩

/-- Claim C5 witness: the non-null clause evaluated on a context whose
second candidate fully supports the requested weapons (the normal scoring
path), and the fallback clause evaluated on a two-candidate context with no
universal locator and no supportable weapon. -/
theorem claim_C5_witness :
    (∃ n, n ≠ [] ∧ ( find_entity_for_design [(cs "L", 2)]
        [(cs "e1", [cs "large_gun_01"]),
         (cs "e2", [cs "large_gun_01", cs "large_gun_02"])]).1 = some n) ∧
    ( find_entity_for_design [(cs "L", 1)]
        [(cs "a1", [cs "x"]), (cs "b2", [cs "y", cs "z"])] =
        (some (maxFold (cs "a1", [cs "x"]) [(cs "b2", [cs "y", cs "z"])]).1,
          fbMap (maxFold (cs "a1", [cs "x"]) [(cs "b2", [cs "y", cs "z"])]).2) ∧
      maxFold (cs "a1", [cs "x"]) [(cs "b2", [cs "y", cs "z"])] ∈
        [(cs "a1", [cs "x"]), (cs "b2", [cs "y", cs "z"])] ∧
      (∀ q ∈ [(cs "a1", [cs "x"]), (cs "b2", [cs "y", cs "z"])],
        q.2.length ≤ (maxFold (cs "a1", [cs "x"]) [(cs "b2", [cs "y", cs "z"])]).2.length) ∧
      (∃ l₁ l₂, [(cs "a1", [cs "x"]), (cs "b2", [cs "y", cs "z"])] =
          l₁ ++ maxFold (cs "a1", [cs "x"]) [(cs "b2", [cs "y", cs "z"])] :: l₂ ∧
        ∀ q ∈ l₁, q.2.length <
          (maxFold (cs "a1", [cs "x"]) [(cs "b2", [cs "y", cs "z"])]).2.length)) :=
  ⟨claim_C5.1 [(cs "L", 2)]
      [(cs "e1", [cs "large_gun_01"]), (cs "e2", [cs "large_gun_01", cs "large_gun_02"])]
      (by decide) (by decide),
   claim_C5.2 [(cs "L", 1)] (cs "a1", [cs "x"]) [(cs "b2", [cs "y", cs "z"])]
      (by decide) (by decide) (by decide)⟩

/-- Claim C6: if any candidate entity exposes a locator named `turret_01`,
`weapon_01`, `weapon_02`, `root` or `core`, or containing `turret_` or
`planet_killer`, then `find_entity_for_design` selects an entity exposing
such a locator and maps every attachment category (`large_gun`, `medium_gun`,
`small_gun`, `xl_gun`, `strike_craft`, `planet_killer`) to the single-element
list containing that universal locator. -/
theorem claim_C6 (w : List (Str × Nat)) (es : List (Str × List Str))
    (h : ∃ p ∈ es, ∃ u ∈ p.2, isUniversal u = true) :
    ∃ n ls u, (n, ls) ∈ es ∧ u ∈ ls ∧ isUniversal u = true ∧
      find_entity_for_design w es = (some n, univMap u) ∧
      (∀ cat ∈ [cs "large_gun", cs "medium_gun", cs "small_gun", cs "xl_gun",
          cs "strike_craft", cs "planet_killer"],
        lookupA (univMap u) cat = some [u]) := by
  obtain ⟨e, rest, rfl⟩ : ∃ e rest, es = e :: rest := by
    rcases h with ⟨p, hp, _⟩
    cases es with
    | nil => cases hp
    | cons e rest => exact ⟨e, rest, rfl⟩
  obtain ⟨n, ls, u, hmem, hul, hU, heq⟩ :=
    feLoop_universal w (e :: rest) none (-1) [] none [] h
  refine ⟨n, ls, u, hmem, hul, hU, ?_, ?_⟩
  · show feLoop w (e :: rest) none (-1) [] none [] = _
    exact heq
  · intro cat hcat
    fin_cases hcat <;> rfl

/-- Claim C6 witness: the universal-locator theorem evaluated on an entity
exposing `turret_01`. -/
theorem claim_C6_witness :
    ∃ n ls u, (n, ls) ∈ [(cs "org", [cs "body", cs "turret_01"])] ∧ u ∈ ls ∧
      isUniversal u = true ∧
      find_entity_for_design [(cs "T", 1)] [(cs "org", [cs "body", cs "turret_01"])] =
        (some n, univMap u) ∧
      (∀ cat ∈ [cs "large_gun", cs "medium_gun", cs "small_gun", cs "xl_gun",
          cs "strike_craft", cs "planet_killer"],
        lookupA (univMap u) cat = some [u]) :=
  claim_C6 [(cs "T", 1)] [(cs "org", [cs "body", cs "turret_01"])] (by decide)

/-- Claim C7: for every record key of the form
`PBSS_<SHIPTYPE>_<SLOT>_<TIER>_<NOTATION>` (ship type given by its
underscore-free parts, none of which is a tier word; slot likewise; the tier
token occurring only at its own position) whose ship type is known to the
base-points table, the tier-repair pass rewrites the key's embedded tier
token to the tier recomputed by `parse_notation` from the key's own notation
and ship type whenever the two differ. -/
theorem claim_C7 (known : Str → Bool) (sp : List Str) (slot tier nota : Str)
    (hspu : ∀ s ∈ sp, ∀ c ∈ s, ¬(c = '_'))
    (hspt : ∀ s ∈ sp, inTiers s = false)
    (hsp : sp ≠ [])
    (hslotu : ∀ c ∈ slot, ¬(c = '_'))
    (hslott : inTiers slot = false)
    (htier : inTiers tier = true)
    (hknown : known (lowS (joinCh '_' sp)) = true)
    (hocc1 : occBefore (('_' :: tier) ++ ['_'])
        (cs "PBSS" ++ '_' :: (joinCh '_' sp ++ '_' :: slot))
        ((('_' :: tier) ++ ['_']) ++ nota) = false)
    (hocc2 : hasOcc (('_' :: tier) ++ ['_']) nota = false)
    (hdiff : uppS ( parse_notation nota (lowS (joinCh '_' sp))).tier ≠ tier) :
    fix_key known (mkKey sp slot tier nota) =
      some (mkKey sp slot (uppS ( parse_notation nota (lowS (joinCh '_' sp))).tier) nota) :=
  fix_key_general known sp slot tier nota hspu hspt hsp hslotu hslott htier
    hknown hocc1 hocc2 hdiff

/-- Claim C7 witness: `PBSS_BATTLESHIP_BOW_ADVANCED_T1UL1` is repaired to
`PBSS_BATTLESHIP_BOW_COMMON_T1UL1` (with `battleship` in the base-points
table). -/
theorem claim_C7_witness :
    fix_key (fun s => s = cs "battleship") (cs "PBSS_BATTLESHIP_BOW_ADVANCED_T1UL1") =
      some (cs "PBSS_BATTLESHIP_BOW_COMMON_T1UL1") := by
  have h := claim_C7 (fun s => s = cs "battleship") [cs "BATTLESHIP"] (cs "BOW")
    (cs "ADVANCED") (cs "T1UL1") (by decide) (by decide) (by decide) (by decide)
    (by decide) (by decide) (by decide) (by decide) (by decide) (by decide)
  rw [show mkKey [cs "BATTLESHIP"] (cs "BOW") (cs "ADVANCED") (cs "T1UL1") =
      cs "PBSS_BATTLESHIP_BOW_ADVANCED_T1UL1" from by decide] at h
  rw [h]
  decide

/-- Claim C8 (refuted / code bug): the per-file repair transformation of
`process_file` is not idempotent.  With modifier replacements
`beta → gamma, alpha → beta` (in that dict iteration order) and the one-line
content `alpha = 1`, the first pass produces `beta = 1` and the second pass
rewrites that again to `gamma = 1`: a repaired record is not a fixed point,
because the sequential word-boundary modifier substitutions can cascade
across passes. -/
theorem claim_C8 :
    process_file_content (fun _ => false)
        [(cs "beta", some (cs "gamma")), (cs "alpha", some (cs "beta"))] [] [] [] [] []
        (cs "alpha = 1") = cs "beta = 1" ∧
    process_file_content (fun _ => false)
        [(cs "beta", some (cs "gamma")), (cs "alpha", some (cs "beta"))] [] [] [] [] []
        (cs "beta = 1") = cs "gamma = 1" ∧
    process_file_content (fun _ => false)
        [(cs "beta", some (cs "gamma")), (cs "alpha", some (cs "beta"))] [] [] [] [] []
        (process_file_content (fun _ => false)
          [(cs "beta", some (cs "gamma")), (cs "alpha", some (cs "beta"))] [] [] [] [] []
          (cs "alpha = 1")) ≠
      process_file_content (fun _ => false)
        [(cs "beta", some (cs "gamma")), (cs "alpha", some (cs "beta"))] [] [] [] [] []
        (cs "alpha = 1") := by
  refine ⟨by decide, by decide, by decide⟩

/-- Claim C9 (amended): for a needed locator of the `xl_gun` class (absent
from the valid set), the remapping prefers, over the lexicographically
sorted valid list, a valid locator containing `large_gun`, then one
containing `extra_large`, then one containing `xl_gun` (the code's
`size_map` order); if no preference keyword matches any valid locator, the
lexicographically-first valid locator is chosen. -/
theorem claim_C9 (ns valid : List Str) (needed : Str)
    (h1 : needed ∈ ns) (h2 : ¬valid = []) (h3 : memB needed valid = false)
    (h4 : hasOcc (cs "xl_gun") needed = true) :
    lookupA (get_locator_mapping ns valid) needed =
      some (match prefSearch [cs "large_gun", cs "extra_large", cs "xl_gun"]
              (sortLex valid) with
            | some v => v
            | none => (sortLex valid).headD []) := by
  unfold get_locator_mapping
  rw [if_neg h2]
  have h := glm_lookup valid (sortLex valid) ns [] needed (Or.inr ⟨h1, h3⟩)
  rw [h]
  have hfind : size_map.find? (fun kp => hasOcc kp.1 needed) =
      some (cs "xl_gun", [cs "large_gun", cs "extra_large", cs "xl_gun"]) := by
    unfold size_map
    rw [List.find?_cons_of_pos]
    exact h4
  unfold mapOneLocator
  rw [hfind]

/-- Claim C9 counterexample: with needed `xl_gun_01` and valid locators
`{xl_gun_02, large_gun_01}`, the mapping selects `large_gun_01` even though
an `xl_gun`-containing valid locator exists — so a valid locator containing
`xl_gun` is not preferred first, contrary to the claim. -/
theorem claim_C9_counterexample :
    lookupA (get_locator_mapping [cs "xl_gun_01"] [cs "xl_gun_02", cs "large_gun_01"])
        (cs "xl_gun_01") = some (cs "large_gun_01") ∧
    hasOcc (cs "xl_gun") (cs "xl_gun_02") = true ∧
    memB (cs "xl_gun_02") [cs "xl_gun_02", cs "large_gun_01"] = true ∧
    cs "large_gun_01" ≠ cs "xl_gun_02" := by
  refine ⟨by decide, by decide, by decide, by decide⟩

/-- Claim C9 witness: the preference theorem evaluated where no keyword
matches, exercising the lexicographic fallback. -/
theorem claim_C9_witness :
    lookupA (get_locator_mapping [cs "xl_gun_05"] [cs "zz", cs "aa"]) (cs "xl_gun_05") =
      some (match prefSearch [cs "large_gun", cs "extra_large", cs "xl_gun"]
              (sortLex [cs "zz", cs "aa"]) with
            | some v => v
            | none => (sortLex [cs "zz", cs "aa"]).headD []) :=
  claim_C9 [cs "xl_gun_05"] [cs "zz", cs "aa"] (cs "xl_gun_05")
    (by decide) (by decide) (by decide) (by decide)

/-- Claim C10: repeated weapon tokens overwrite: the weapons dict built by
`parse_notation` maps each kind to the count of its last occurrence in the
match sequence (not the sum), and concretely `"L2L3"` parses to the match
list `[(L,2), (L,3)]`, weapons `{L:3}` and 12 points. -/
theorem claim_C10 :
    (∀ (ms : List (Str × Nat)) (k : Str), lookupA (dictFold ms) k = lastVal ms k) ∧
    findWeapons (cs "L2L3") = [(cs "L", 2), (cs "L", 3)] ∧
    ( parse_notation (cs "L2L3") (cs "battleship")).weapons = [(cs "L", 3)] ∧
    ( parse_notation (cs "L2L3") (cs "battleship")).total_points = 12 := by
  refine ⟨?_, by decide, by decide, by decide⟩
  intro ms k
  unfold dictFold lastVal
  have h := dict_last_aux k ms []
  simpa using h
